import Mathlib

/-!
Verification of the workout-planner core (src/app.js, class WorkoutPlanner).

The JavaScript class is shallowly embedded as pure Lean functions over an
explicit state record.  JS numbers are modelled as rationals (`Rat`), JS
arrays as lists, and the single localStorage cell as a `Stored` value: the
cell is either absent, holds a string that `JSON.parse` rejects (`corrupt`),
or holds a parseable document, modelled at the level of the parsed JSON
tree (`Json`).  `JSON.stringify`/`JSON.parse` are the browser's primitives,
not repository code; for well-formed documents they are inverse, so the
store is modelled at the tree level.  DOM rendering, event wiring and
alerts carry no state relevant to the verified properties and are dropped;
the per-exercise set-input rows of the workout modal are modelled as the
`buffers` field of the active session, and the boolean result of an
operation models whether it succeeded or reported an error to the user.
-/

/-- Workout categories (the keys of `this.workouts`). -/
inductive Category
  | push
  | pull
  | legs
deriving DecidableEq, Repr

/-- Weekdays carried by the schedule (the keys of `this.schedule`). -/
inductive Day
  | monday
  | tuesday
  | wednesday
  | thursday
  | friday
  | saturday
deriving DecidableEq, Repr

/-- The exercise catalog: one ordered name list per category
(`this.workouts`). -/
structure Workouts where
  push : List String
  pull : List String
  legs : List String
deriving DecidableEq, Repr

/-- Read one category's list, as `this.workouts[type]`. -/
def Workouts.get (w : Workouts) : Category → List String
  | Category.push => w.push
  | Category.pull => w.pull
  | Category.legs => w.legs

/-- Replace one category's list, as assignment to `this.workouts[type]`. -/
def Workouts.set (w : Workouts) : Category → List String → Workouts
  | Category.push, l => { w with push := l }
  | Category.pull, l => { w with pull := l }
  | Category.legs, l => { w with legs := l }

/-- The weekly schedule: one ordered name list per day (`this.schedule`). -/
structure Schedule where
  monday : List String
  tuesday : List String
  wednesday : List String
  thursday : List String
  friday : List String
  saturday : List String
deriving DecidableEq, Repr

/-- Read one day's list, as `this.schedule[day]`. -/
def Schedule.get (sch : Schedule) : Day → List String
  | Day.monday => sch.monday
  | Day.tuesday => sch.tuesday
  | Day.wednesday => sch.wednesday
  | Day.thursday => sch.thursday
  | Day.friday => sch.friday
  | Day.saturday => sch.saturday

/-- Replace one day's list, as assignment to `this.schedule[day]`. -/
def Schedule.set (sch : Schedule) : Day → List String → Schedule
  | Day.monday, l => { sch with monday := l }
  | Day.tuesday, l => { sch with tuesday := l }
  | Day.wednesday, l => { sch with wednesday := l }
  | Day.thursday, l => { sch with thursday := l }
  | Day.friday, l => { sch with friday := l }
  | Day.saturday, l => { sch with saturday := l }

/-- One logged set: the numbers read from a weight/reps input pair after
the coercions `parseFloat(...) || 0` and `parseInt(...) || 0`. -/
structure LoggedSet where
  weight : Rat
  reps : Rat
deriving DecidableEq, Repr

/-- One exercise's entry inside a workout record. -/
structure ExerciseLog where
  name : String
  sets : List LoggedSet
deriving DecidableEq, Repr

/-- A completed workout appended to `this.progress`. -/
structure WorkoutRecord where
  day : Day
  date : String
  exercises : List ExerciseLog
deriving DecidableEq, Repr

/-- The transient modal session: `this.currentWorkoutDay`,
`this.currentWorkoutData`, and the set-input rows typed into the modal
(`buffers`, indexed like the `sets-i` containers). -/
structure Session where
  day : Day
  data : List ExerciseLog
  buffers : List (List LoggedSet)
deriving DecidableEq, Repr

/-- Parsed JSON trees, with numbers as rationals. -/
inductive Json
  | null
  | bool (b : Bool)
  | num (q : Rat)
  | str (s : String)
  | arr (items : List Json)
  | obj (fields : List (String × Json))

/-- The localStorage cell under key `workoutPlannerData`: missing, a string
rejected by `JSON.parse`, or a parseable document given by its JSON tree. -/
inductive Stored
  | absent
  | corrupt
  | value (doc : Json)

/-- JS property access `j[key]` on a parsed value: a lookup on objects,
`undefined` (here `none`) on every other non-null value. -/
def jsField (j : Json) (key : String) : Option Json :=
  match j with
  | Json.obj fields => List.lookup key fields
  | _ => none

/-- JS truthiness of a parsed JSON value, as used by the `||` fallbacks in
`loadData`. -/
def truthy : Json → Bool
  | Json.null => false
  | Json.bool b => b
  | Json.num q => !(q == 0)
  | Json.str s => !(s == "")
  | Json.arr _ => true
  | Json.obj _ => true

/-- Day names as serialized in workout records. -/
def dayToString : Day → String
  | Day.monday => "monday"
  | Day.tuesday => "tuesday"
  | Day.wednesday => "wednesday"
  | Day.thursday => "thursday"
  | Day.friday => "friday"
  | Day.saturday => "saturday"

/-- Recognize a serialized day name. -/
def dayFromStr (s : String) : Option Day :=
  if s == "monday" then some Day.monday
  else if s == "tuesday" then some Day.tuesday
  else if s == "wednesday" then some Day.wednesday
  else if s == "thursday" then some Day.thursday
  else if s == "friday" then some Day.friday
  else if s == "saturday" then some Day.saturday
  else none

/-- Encode a string list as a JSON array of strings. -/
def encodeStrList (l : List String) : Json :=
  Json.arr (l.map Json.str)

/-- Encode the catalog as JSON, field for field. -/
def encodeWorkouts (w : Workouts) : Json :=
  Json.obj [("push", encodeStrList w.push), ("pull", encodeStrList w.pull),
    ("legs", encodeStrList w.legs)]

/-- Encode the schedule as JSON, field for field. -/
def encodeSchedule (sch : Schedule) : Json :=
  Json.obj [("monday", encodeStrList sch.monday),
    ("tuesday", encodeStrList sch.tuesday),
    ("wednesday", encodeStrList sch.wednesday),
    ("thursday", encodeStrList sch.thursday),
    ("friday", encodeStrList sch.friday),
    ("saturday", encodeStrList sch.saturday)]

/-- Encode one logged set. -/
def encodeSet (st : LoggedSet) : Json :=
  Json.obj [("weight", Json.num st.weight), ("reps", Json.num st.reps)]

/-- Encode one exercise log. -/
def encodeLog (e : ExerciseLog) : Json :=
  Json.obj [("name", Json.str e.name), ("sets", Json.arr (e.sets.map encodeSet))]

/-- Encode one workout record. -/
def encodeRecord (r : WorkoutRecord) : Json :=
  Json.obj [("day", Json.str (dayToString r.day)), ("date", Json.str r.date),
    ("exercises", Json.arr (r.exercises.map encodeLog))]

/-- Encode the whole persisted document, mirroring the `data` object built
in `saveData`. -/
def encodeData (w : Workouts) (sch : Schedule) (p : List WorkoutRecord) : Json :=
  Json.obj [("workouts", encodeWorkouts w), ("schedule", encodeSchedule sch),
    ("progress", Json.arr (p.map encodeRecord))]

/-- Read a JSON value back as a string list (the shape `saveData` writes). -/
def decodeStrList : Json → List String
  | Json.arr xs => xs.filterMap (fun x => match x with
      | Json.str s => some s
      | _ => none)
  | _ => []

/-- Read a JSON value back as a catalog. -/
def decodeWorkouts (j : Json) : Workouts :=
  { push := decodeStrList ((jsField j "push").getD Json.null)
    pull := decodeStrList ((jsField j "pull").getD Json.null)
    legs := decodeStrList ((jsField j "legs").getD Json.null) }

/-- Read a JSON value back as a schedule. -/
def decodeSchedule (j : Json) : Schedule :=
  { monday := decodeStrList ((jsField j "monday").getD Json.null)
    tuesday := decodeStrList ((jsField j "tuesday").getD Json.null)
    wednesday := decodeStrList ((jsField j "wednesday").getD Json.null)
    thursday := decodeStrList ((jsField j "thursday").getD Json.null)
    friday := decodeStrList ((jsField j "friday").getD Json.null)
    saturday := decodeStrList ((jsField j "saturday").getD Json.null) }

/-- Read a JSON value back as a number, defaulting to 0. -/
def jsonAsNum : Json → Rat
  | Json.num q => q
  | _ => 0

/-- Read a JSON value back as a string, defaulting to the empty string. -/
def jsonAsStr : Json → String
  | Json.str s => s
  | _ => ""

/-- Read a JSON value back as a logged set. -/
def decodeSet (j : Json) : LoggedSet :=
  { weight := jsonAsNum ((jsField j "weight").getD Json.null)
    reps := jsonAsNum ((jsField j "reps").getD Json.null) }

/-- Read a JSON value back as an exercise log. -/
def decodeLog (j : Json) : ExerciseLog :=
  { name := jsonAsStr ((jsField j "name").getD Json.null)
    sets := match (jsField j "sets").getD Json.null with
      | Json.arr xs => xs.map decodeSet
      | _ => [] }

/-- Read a JSON value back as a workout record. -/
def decodeRecord (j : Json) : WorkoutRecord :=
  { day := (dayFromStr (jsonAsStr ((jsField j "day").getD Json.null))).getD Day.monday
    date := jsonAsStr ((jsField j "date").getD Json.null)
    exercises := match (jsField j "exercises").getD Json.null with
      | Json.arr xs => xs.map decodeLog
      | _ => [] }

/-- Read a JSON value back as a progress list. -/
def decodeProgress : Json → List WorkoutRecord
  | Json.arr xs => xs.map decodeRecord
  | _ => []

/-- The full planner state: the three persistent structures of the class,
the transient session, and the localStorage cell written by `saveData`. -/
structure WorkoutPlanner where
  workouts : Workouts
  schedule : Schedule
  progress : List WorkoutRecord
  session : Option Session
  stored : Stored

/-- The catalog seeded by `loadData` when no saved data exists. -/
def seedWorkouts : Workouts :=
  { push := ["Bench Press", "Overhead Press", "Incline Dumbbell Press",
      "Lateral Raises", "Tricep Dips"]
    pull := ["Pull-ups", "Barbell Rows", "Cable Rows", "Face Pulls",
      "Barbell Curls"]
    legs := ["Squats", "Romanian Deadlifts", "Leg Press", "Leg Curls",
      "Calf Raises"] }

/-- The constructor's initial catalog: three empty lists. -/
def emptyWorkouts : Workouts :=
  { push := [], pull := [], legs := [] }

/-- The constructor's initial schedule: six empty lists. -/
def emptySchedule : Schedule :=
  { monday := [], tuesday := [], wednesday := [], thursday := [],
    friday := [], saturday := [] }

/-- The static weekday-to-category table `getDayType`. -/
def getDayType : Day → Category
  | Day.monday => Category.push
  | Day.tuesday => Category.pull
  | Day.wednesday => Category.legs
  | Day.thursday => Category.push
  | Day.friday => Category.pull
  | Day.saturday => Category.legs

/-- The method `saveData`: serialize workouts, schedule and progress into
the single storage cell, overwriting it. -/
def saveData (s : WorkoutPlanner) : WorkoutPlanner :=
  { s with stored := Stored.value (encodeData s.workouts s.schedule s.progress) }

/-- The method `loadData`, run against a given storage cell.  Returns the
resulting state together with whether a decode error was reported
(`console.error` in the catch block).  A missing cell installs the seed
catalog and persists it; a string `JSON.parse` rejects is caught, leaving
the constructor's empty structures in place; a parsed `null` document also
lands in the catch block, because `data.workouts` throws on `null`; any
other parsed document is read field by field with the `||` fallbacks. -/
def loadData (cell : Stored) : WorkoutPlanner × Bool :=
  match cell with
  | Stored.absent =>
      (saveData
        { workouts := seedWorkouts
          schedule := emptySchedule
          progress := []
          session := none
          stored := Stored.absent },
       false)
  | Stored.corrupt =>
      ({ workouts := emptyWorkouts
         schedule := emptySchedule
         progress := []
         session := none
         stored := Stored.corrupt },
       true)
  | Stored.value doc =>
      match doc with
      | Json.null =>
          ({ workouts := emptyWorkouts
             schedule := emptySchedule
             progress := []
             session := none
             stored := Stored.value Json.null },
           true)
      | j =>
          ({ workouts :=
               match jsField j "workouts" with
               | some w => if truthy w then decodeWorkouts w else emptyWorkouts
               | none => emptyWorkouts
             schedule :=
               match jsField j "schedule" with
               | some sch => if truthy sch then decodeSchedule sch
                   else emptySchedule
               | none => emptySchedule
             progress :=
               match jsField j "progress" with
               | some p => if truthy p then decodeProgress p else []
               | none => []
             session := none
             stored := Stored.value j },
           false)

/-- The check `isScheduleValid(day)`: every scheduled exercise is still in
the category's list, and the lengths agree. -/
def isScheduleValid (s : WorkoutPlanner) (day : Day) : Bool :=
  let type := getDayType day
  let scheduleExercises := s.schedule.get day
  let availableExercises := s.workouts.get type
  scheduleExercises.all (fun ex => availableExercises.contains ex) &&
    scheduleExercises.length == availableExercises.length

/-- One iteration of the `forEach` in `updateSchedule`: resync one day's
entry from the catalog when it is empty or stale. -/
def syncDay (s : WorkoutPlanner) (day : Day) : WorkoutPlanner :=
  let type := getDayType day
  if (s.schedule.get day).length = 0 || !(isScheduleValid s day) then
    { s with schedule := s.schedule.set day (s.workouts.get type) }
  else s

/-- The six days, in the order `updateSchedule` visits them. -/
def dayList : List Day :=
  [Day.monday, Day.tuesday, Day.wednesday, Day.thursday, Day.friday,
    Day.saturday]

/-- The method `updateSchedule`: run the resync over all six days. -/
def updateSchedule (s : WorkoutPlanner) : WorkoutPlanner :=
  dayList.foldl syncDay s

/-- JS `String.prototype.trim`: drop leading and trailing whitespace. -/
def jsTrim (s : String) : String :=
  String.mk
    (((s.toList.dropWhile Char.isWhitespace).reverse.dropWhile
      Char.isWhitespace).reverse)

/-- The method `addExercise(type)`, with the text field's value passed in:
trim it, and only when the result is a nonempty name not already in the
category's list, append it, persist, and resync the schedule. -/
def addExercise (s : WorkoutPlanner) (type : Category) (inputValue : String) :
    WorkoutPlanner :=
  let name := jsTrim inputValue
  if name ≠ "" && !((s.workouts.get type).contains name) then
    updateSchedule (saveData
      { s with
          workouts := s.workouts.set type (s.workouts.get type ++ [name]) })
  else s

/-- JS `Array.prototype.splice(index, 1)`: a negative start counts from the
end of the array (clamped to 0), a start past the end removes nothing. -/
def spliceRemoveOne {α : Type} (l : List α) (index : Int) : List α :=
  let n := l.length
  let start := if index < 0 then (max ((n : Int) + index) 0).toNat
    else min index.toNat n
  l.take start ++ l.drop (start + 1)

/-- The method `removeExercise(type, index)`: splice out one element,
persist, and resync the schedule. -/
def removeExercise (s : WorkoutPlanner) (type : Category) (index : Int) :
    WorkoutPlanner :=
  updateSchedule (saveData
    { s with
        workouts :=
          s.workouts.set type (spliceRemoveOne (s.workouts.get type) index) })

/-- Swap two positions of a list, as the destructuring assignment
`[a[i], a[j]] = [a[j], a[i]]`; out-of-range positions leave the list
unchanged (the loop only produces in-range ones). -/
def swapIdx {α : Type} (l : List α) (i j : Nat) : List α :=
  match l[i]?, l[j]? with
  | some a, some b => (l.set i b).set j a
  | _, _ => l

/-- The Fisher-Yates loop of `randomizeDay`:
`for (i = n-1; i > 0; i--) swap(i, j)` where `j = floor(random()*(i+1))`.
The random source is modelled by the function `js` giving the index drawn
at loop counter `i`; a real draw always satisfies `js i ≤ i`. -/
def fisherYates {α : Type} (l : List α) (js : Nat → Nat) : List α :=
  (List.range' 1 (l.length - 1)).reverse.foldl
    (fun exercises i => swapIdx exercises i (js i)) l

/-- The method `randomizeDay(day)`: shuffle a copy of the category's list,
assign it to the day, and persist. -/
def randomizeDay (s : WorkoutPlanner) (day : Day) (js : Nat → Nat) :
    WorkoutPlanner :=
  let type := getDayType day
  let exercises := fisherYates (s.workouts.get type) js
  saveData { s with schedule := s.schedule.set day exercises }

/-- The method `startWorkout(day)`: report an error when the day's list is
empty, otherwise open a session on that list with an empty set-log and an
empty set-input container per exercise.  The boolean is success. -/
def startWorkout (s : WorkoutPlanner) (day : Day) : WorkoutPlanner × Bool :=
  let exercises := s.schedule.get day
  if exercises.length = 0 then (s, false)
  else
    ({ s with
        session := some
          { day := day
            data := exercises.map (fun ex => { name := ex, sets := [] })
            buffers := exercises.map (fun _ => []) } },
     true)

/-- The method `completeWorkout()`, with the clock's timestamp passed in:
gather the buffered sets per scheduled exercise, keep only sets with
positive reps, drop exercises left with no set, and either report failure
(leaving every field untouched) or append the record, persist, and close
the session.  Without an active session the method throws before mutating
anything; that path is modelled as failure with the state unchanged. -/
def completeWorkout (s : WorkoutPlanner) (now : String) :
    WorkoutPlanner × Bool :=
  match s.session with
  | none => (s, false)
  | some sess =>
      let exercises := s.schedule.get sess.day
      let logs := exercises.enum.filterMap (fun p =>
        let sets := (sess.buffers.getD p.fst []).filter
          (fun st => decide (0 < st.reps))
        if sets.isEmpty then none
        else some { name := p.snd, sets := sets })
      if logs.isEmpty then (s, false)
      else
        let record : WorkoutRecord :=
          { day := sess.day, date := now, exercises := logs }
        let s2 := saveData { s with progress := s.progress ++ [record] }
        ({ s2 with session := none }, true)

/-- The method `closeModal` (the `cancel()` of the spec): discard the
session without persisting. -/
def closeModal (s : WorkoutPlanner) : WorkoutPlanner :=
  { s with session := none }

/-- The state right after `loadData` on empty storage. -/
def seedState : WorkoutPlanner :=
  (loadData Stored.absent).fst

/-! ## Structural lemmas about the state accessors -/

@[simp]
theorem workouts_get_set_self (w : Workouts) (c : Category) (l : List String) :
    (w.set c l).get c = l := by
  cases c <;> rfl

theorem workouts_get_set_of_ne (w : Workouts) {c e : Category}
    (l : List String) (h : c ≠ e) : (w.set e l).get c = w.get c := by
  cases c <;> cases e <;> first | rfl | exact absurd rfl h

@[simp]
theorem workouts_set_get_self (w : Workouts) (c : Category) :
    w.set c (w.get c) = w := by
  cases c <;> rfl

@[simp]
theorem schedule_get_set_self (sch : Schedule) (d : Day) (l : List String) :
    (sch.set d l).get d = l := by
  cases d <;> rfl

theorem schedule_get_set_of_ne (sch : Schedule) {d e : Day} (l : List String)
    (h : d ≠ e) : (sch.set e l).get d = sch.get d := by
  cases d <;> cases e <;> first | rfl | exact absurd rfl h

@[simp]
theorem saveData_workouts (s : WorkoutPlanner) :
    (saveData s).workouts = s.workouts := rfl

@[simp]
theorem saveData_schedule (s : WorkoutPlanner) :
    (saveData s).schedule = s.schedule := rfl

@[simp]
theorem saveData_progress (s : WorkoutPlanner) :
    (saveData s).progress = s.progress := rfl

@[simp]
theorem saveData_session (s : WorkoutPlanner) :
    (saveData s).session = s.session := rfl

@[simp]
theorem syncDay_workouts (s : WorkoutPlanner) (d : Day) :
    (syncDay s d).workouts = s.workouts := by
  simp only [syncDay]
  split <;> rfl

@[simp]
theorem syncDay_session (s : WorkoutPlanner) (d : Day) :
    (syncDay s d).session = s.session := by
  simp only [syncDay]
  split <;> rfl

@[simp]
theorem syncDay_progress (s : WorkoutPlanner) (d : Day) :
    (syncDay s d).progress = s.progress := by
  simp only [syncDay]
  split <;> rfl

theorem syncDay_get_of_ne (s : WorkoutPlanner) {d e : Day} (h : d ≠ e) :
    (syncDay s e).schedule.get d = s.schedule.get d := by
  simp only [syncDay]
  split
  · exact schedule_get_set_of_ne _ _ h
  · rfl

theorem syncDay_get_self (s : WorkoutPlanner) (d : Day) :
    (syncDay s d).schedule.get d =
      if (s.schedule.get d).length = 0 || !(isScheduleValid s d) then
        s.workouts.get (getDayType d)
      else s.schedule.get d := by
  simp only [syncDay]
  split <;> simp_all

theorem foldl_syncDay_workouts (days : List Day) (s : WorkoutPlanner) :
    (days.foldl syncDay s).workouts = s.workouts := by
  induction days generalizing s with
  | nil => rfl
  | cons e rest ih => simp [List.foldl_cons, ih]

theorem foldl_syncDay_session (days : List Day) (s : WorkoutPlanner) :
    (days.foldl syncDay s).session = s.session := by
  induction days generalizing s with
  | nil => rfl
  | cons e rest ih => simp [List.foldl_cons, ih]

theorem foldl_syncDay_get_of_not_mem (days : List Day) (s : WorkoutPlanner)
    (d : Day) (h : d ∉ days) :
    (days.foldl syncDay s).schedule.get d = s.schedule.get d := by
  induction days generalizing s with
  | nil => rfl
  | cons e rest ih =>
      rw [List.foldl_cons, ih _ (fun hm => h (List.mem_cons_of_mem e hm)),
        syncDay_get_of_ne s
          (fun he => h (by rw [he]; exact List.mem_cons_self e rest))]

theorem isScheduleValid_congr {s t : WorkoutPlanner} {d : Day}
    (h1 : s.workouts = t.workouts) (h2 : s.schedule.get d = t.schedule.get d) :
    isScheduleValid s d = isScheduleValid t d := by
  simp only [isScheduleValid, h1, h2]

theorem updateSchedule_eq_chain (s : WorkoutPlanner) :
    updateSchedule s =
      syncDay (syncDay (syncDay (syncDay (syncDay (syncDay s Day.monday)
        Day.tuesday) Day.wednesday) Day.thursday) Day.friday) Day.saturday := by
  simp only [updateSchedule, dayList, List.foldl_cons, List.foldl_nil]

/-- Per-day effect of `updateSchedule`: each day's entry is handled from
the pre-call state, independently of the other days. -/
theorem updateSchedule_get (s : WorkoutPlanner) (d : Day) :
    (updateSchedule s).schedule.get d =
      if (s.schedule.get d).length = 0 || !(isScheduleValid s d) then
        s.workouts.get (getDayType d)
      else s.schedule.get d := by
  cases d
  case monday =>
    rw [updateSchedule_eq_chain,
      syncDay_get_of_ne _ (show Day.monday ≠ Day.saturday by decide),
      syncDay_get_of_ne _ (show Day.monday ≠ Day.friday by decide),
      syncDay_get_of_ne _ (show Day.monday ≠ Day.thursday by decide),
      syncDay_get_of_ne _ (show Day.monday ≠ Day.wednesday by decide),
      syncDay_get_of_ne _ (show Day.monday ≠ Day.tuesday by decide),
      syncDay_get_self]
  case tuesday =>
    rw [updateSchedule_eq_chain,
      syncDay_get_of_ne _ (show Day.tuesday ≠ Day.saturday by decide),
      syncDay_get_of_ne _ (show Day.tuesday ≠ Day.friday by decide),
      syncDay_get_of_ne _ (show Day.tuesday ≠ Day.thursday by decide),
      syncDay_get_of_ne _ (show Day.tuesday ≠ Day.wednesday by decide),
      syncDay_get_self]
    have hw : (syncDay s Day.monday).workouts = s.workouts :=
      syncDay_workouts s Day.monday
    have hg : (syncDay s Day.monday).schedule.get Day.tuesday =
        s.schedule.get Day.tuesday :=
      syncDay_get_of_ne _ (show Day.tuesday ≠ Day.monday by decide)
    rw [hw, hg, isScheduleValid_congr hw hg]
  case wednesday =>
    rw [updateSchedule_eq_chain,
      syncDay_get_of_ne _ (show Day.wednesday ≠ Day.saturday by decide),
      syncDay_get_of_ne _ (show Day.wednesday ≠ Day.friday by decide),
      syncDay_get_of_ne _ (show Day.wednesday ≠ Day.thursday by decide),
      syncDay_get_self]
    have hw : (syncDay (syncDay s Day.monday) Day.tuesday).workouts =
        s.workouts := by
      rw [syncDay_workouts, syncDay_workouts]
    have hg : (syncDay (syncDay s Day.monday) Day.tuesday).schedule.get
        Day.wednesday = s.schedule.get Day.wednesday := by
      rw [syncDay_get_of_ne _ (show Day.wednesday ≠ Day.tuesday by decide),
        syncDay_get_of_ne _ (show Day.wednesday ≠ Day.monday by decide)]
    rw [hw, hg, isScheduleValid_congr hw hg]
  case thursday =>
    rw [updateSchedule_eq_chain,
      syncDay_get_of_ne _ (show Day.thursday ≠ Day.saturday by decide),
      syncDay_get_of_ne _ (show Day.thursday ≠ Day.friday by decide),
      syncDay_get_self]
    have hw : (syncDay (syncDay (syncDay s Day.monday) Day.tuesday)
        Day.wednesday).workouts = s.workouts := by
      rw [syncDay_workouts, syncDay_workouts, syncDay_workouts]
    have hg : (syncDay (syncDay (syncDay s Day.monday) Day.tuesday)
        Day.wednesday).schedule.get Day.thursday =
        s.schedule.get Day.thursday := by
      rw [syncDay_get_of_ne _ (show Day.thursday ≠ Day.wednesday by decide),
        syncDay_get_of_ne _ (show Day.thursday ≠ Day.tuesday by decide),
        syncDay_get_of_ne _ (show Day.thursday ≠ Day.monday by decide)]
    rw [hw, hg, isScheduleValid_congr hw hg]
  case friday =>
    rw [updateSchedule_eq_chain,
      syncDay_get_of_ne _ (show Day.friday ≠ Day.saturday by decide),
      syncDay_get_self]
    have hw : (syncDay (syncDay (syncDay (syncDay s Day.monday) Day.tuesday)
        Day.wednesday) Day.thursday).workouts = s.workouts := by
      rw [syncDay_workouts, syncDay_workouts, syncDay_workouts, syncDay_workouts]
    have hg : (syncDay (syncDay (syncDay (syncDay s Day.monday) Day.tuesday)
        Day.wednesday) Day.thursday).schedule.get Day.friday =
        s.schedule.get Day.friday := by
      rw [syncDay_get_of_ne _ (show Day.friday ≠ Day.thursday by decide),
        syncDay_get_of_ne _ (show Day.friday ≠ Day.wednesday by decide),
        syncDay_get_of_ne _ (show Day.friday ≠ Day.tuesday by decide),
        syncDay_get_of_ne _ (show Day.friday ≠ Day.monday by decide)]
    rw [hw, hg, isScheduleValid_congr hw hg]
  case saturday =>
    rw [updateSchedule_eq_chain, syncDay_get_self]
    have hw : (syncDay (syncDay (syncDay (syncDay (syncDay s Day.monday)
        Day.tuesday) Day.wednesday) Day.thursday) Day.friday).workouts =
        s.workouts := by
      rw [syncDay_workouts, syncDay_workouts, syncDay_workouts,
        syncDay_workouts, syncDay_workouts]
    have hg : (syncDay (syncDay (syncDay (syncDay (syncDay s Day.monday)
        Day.tuesday) Day.wednesday) Day.thursday) Day.friday).schedule.get
        Day.saturday = s.schedule.get Day.saturday := by
      rw [syncDay_get_of_ne _ (show Day.saturday ≠ Day.friday by decide),
        syncDay_get_of_ne _ (show Day.saturday ≠ Day.thursday by decide),
        syncDay_get_of_ne _ (show Day.saturday ≠ Day.wednesday by decide),
        syncDay_get_of_ne _ (show Day.saturday ≠ Day.tuesday by decide),
        syncDay_get_of_ne _ (show Day.saturday ≠ Day.monday by decide)]
    rw [hw, hg, isScheduleValid_congr hw hg]

theorem updateSchedule_workouts (s : WorkoutPlanner) :
    (updateSchedule s).workouts = s.workouts :=
  foldl_syncDay_workouts dayList s

theorem updateSchedule_session (s : WorkoutPlanner) :
    (updateSchedule s).session = s.session :=
  foldl_syncDay_session dayList s

/-! ## Catalog operations (claims C5, C6) -/

theorem addExercise_workouts_eq (t : WorkoutPlanner) (c : Category)
    (x : String) :
    (addExercise t c x).workouts =
      if (jsTrim x) ≠ "" ∧ (t.workouts.get c).contains (jsTrim x) = false then
        t.workouts.set c (t.workouts.get c ++ [(jsTrim x)])
      else t.workouts := by
  simp only [addExercise]
  split
  next h =>
    simp only [Bool.and_eq_true, decide_eq_true_eq, Bool.not_eq_true'] at h
    rw [updateSchedule_workouts, saveData_workouts, if_pos h]
  next h =>
    simp only [Bool.and_eq_true, decide_eq_true_eq, Bool.not_eq_true'] at h
    rw [if_neg h]

theorem spliceRemoveOne_of_ge {α : Type} (l : List α) (i : Int)
    (h : (l.length : Int) ≤ i) : spliceRemoveOne l i = l := by
  simp only [spliceRemoveOne]
  have h0 : ¬(i < 0) := by omega
  rw [if_neg h0]
  have hmin : min i.toNat l.length = l.length := by omega
  rw [hmin, List.take_length, List.drop_eq_nil_of_le (by omega), List.append_nil]

/-- C5: `addExercise` trims the input; with an empty trimmed name or one
already present (case-sensitive) it is a no-op, otherwise it appends the
trimmed name at the end and touches no other category.  As amended:
when the trimmed name is nonempty and occurs at most once beforehand,
adding the same input twice leaves exactly one occurrence of the trimmed
name in the category's list. -/
theorem addExercise_spec (s : WorkoutPlanner) (c : Category) (nm : String) :
    ((addExercise s c nm).workouts.get c =
      if (jsTrim nm) = "" ∨ (s.workouts.get c).contains (jsTrim nm) then
        s.workouts.get c
      else s.workouts.get c ++ [(jsTrim nm)])
    ∧ (∀ c2 : Category, c2 ≠ c →
        (addExercise s c nm).workouts.get c2 = s.workouts.get c2)
    ∧ ((jsTrim nm) ≠ "" → (s.workouts.get c).count (jsTrim nm) ≤ 1 →
        ((addExercise (addExercise s c nm) c nm).workouts.get c).count (jsTrim nm)
          = 1) := by
  refine ⟨?_, ?_, ?_⟩
  · rw [addExercise_workouts_eq]
    by_cases hc : (jsTrim nm) = "" ∨ ((s.workouts.get c).contains (jsTrim nm)) = true
    · have hno : ¬((jsTrim nm) ≠ "" ∧ (s.workouts.get c).contains (jsTrim nm) = false) := by
        rintro ⟨h1, h2⟩
        rcases hc with h3 | h3
        · exact h1 h3
        · rw [h2] at h3; exact Bool.false_ne_true h3
      rw [if_neg hno, if_pos hc]
    · have hyes : (jsTrim nm) ≠ "" ∧ (s.workouts.get c).contains (jsTrim nm) = false := by
        push_neg at hc
        exact ⟨hc.1, by simpa using hc.2⟩
      rw [if_pos hyes, if_neg hc, workouts_get_set_self]
  · intro c2 hne
    rw [addExercise_workouts_eq]
    split
    · exact workouts_get_set_of_ne _ _ hne
    · rfl
  · intro hne hcount
    by_cases hc : ((s.workouts.get c).contains (jsTrim nm)) = true
    · have hmem : (jsTrim nm) ∈ s.workouts.get c := by simpa using hc
      have h1 : (addExercise s c nm).workouts = s.workouts := by
        rw [addExercise_workouts_eq, if_neg]
        rintro ⟨_, h2⟩
        rw [h2] at hc
        exact Bool.false_ne_true hc
      have h2 : (addExercise (addExercise s c nm) c nm).workouts = s.workouts := by
        rw [addExercise_workouts_eq, h1, if_neg]
        rintro ⟨_, h2⟩
        rw [h2] at hc
        exact Bool.false_ne_true hc
      rw [h2]
      have hpos : 0 < (s.workouts.get c).count (jsTrim nm) :=
        List.count_pos_iff.mpr hmem
      omega
    · have hnmem : (jsTrim nm) ∉ s.workouts.get c := by simpa using hc
      have hc0 : (s.workouts.get c).contains (jsTrim nm) = false := by
        simpa using hc
      have h1 : (addExercise s c nm).workouts =
          s.workouts.set c (s.workouts.get c ++ [(jsTrim nm)]) := by
        rw [addExercise_workouts_eq, if_pos ⟨hne, hc0⟩]
      have h1get : (addExercise s c nm).workouts.get c =
          s.workouts.get c ++ [(jsTrim nm)] := by
        rw [h1, workouts_get_set_self]
      have hc1 : ((addExercise s c nm).workouts.get c).contains (jsTrim nm) = true := by
        rw [h1get]
        simp
      have h2 : (addExercise (addExercise s c nm) c nm).workouts =
          (addExercise s c nm).workouts := by
        rw [addExercise_workouts_eq, if_neg]
        rintro ⟨_, h3⟩
        rw [h3] at hc1
        exact Bool.false_ne_true hc1
      rw [h2, h1get, List.count_append, List.count_eq_zero.mpr hnmem,
        List.count_singleton_self]

/-- Witness for C5 at a concrete input: adding "Deadlift" twice to the
seeded push list leaves exactly one occurrence. -/
theorem addExercise_spec_witness :
    ((addExercise (addExercise seedState Category.push "Deadlift")
      Category.push "Deadlift").workouts.get Category.push).count
        (jsTrim "Deadlift") = 1 :=
  (addExercise_spec seedState Category.push "Deadlift").2.2 (by decide)
    (by decide)

/-- Counterexample to C5 as stated: adding the name " A " twice yields
zero occurrences of " A " (the stored name is the trimmed "A"), not
exactly one. -/
theorem addExercise_twice_counterexample :
    ¬(((addExercise (addExercise seedState Category.push " A ")
        Category.push " A ").workouts.get Category.push).count " A " = 1) := by
  decide

/-- C6 as amended: `removeExercise` with any index at or past the end of
the category's list leaves the catalog unchanged (and the model raises no
error).  Negative indices are excluded: JS `splice` counts them from the
end. -/
theorem removeExercise_out_of_bounds_spec (s : WorkoutPlanner) (c : Category)
    (i : Int) (h : ((s.workouts.get c).length : Int) ≤ i) :
    (removeExercise s c i).workouts = s.workouts := by
  simp only [removeExercise]
  rw [updateSchedule_workouts, saveData_workouts]
  show s.workouts.set c (spliceRemoveOne (s.workouts.get c) i) = s.workouts
  rw [spliceRemoveOne_of_ge _ _ h, workouts_set_get_self]

/-- Witness for C6 at a concrete input: removing index 99 from the seeded
5-item push list is a no-op on the catalog. -/
theorem removeExercise_out_of_bounds_witness :
    (removeExercise seedState Category.push 99).workouts =
      seedState.workouts :=
  removeExercise_out_of_bounds_spec seedState Category.push 99 (by decide)

/-- Counterexample to C6 as stated: index -1 is not a valid position, yet
`splice(-1, 1)` removes the last element, so the call is not a no-op. -/
theorem removeExercise_negative_index_counterexample :
    ¬((removeExercise seedState Category.push (-1)).workouts.get Category.push
      = seedState.workouts.get Category.push) := by
  decide

/-! ## Persistence (claims C2, C9) -/

/-- C2 as amended: on a corrupt document `loadData` reports a decode error
and keeps the constructor's empty catalog, empty schedule and empty
progress; schedule and progress coincide with the no-saved-data defaults,
but the catalog stays empty instead of receiving the seed lists, and the
corrupt cell is not overwritten. -/
theorem loadData_corrupt_spec :
    (loadData Stored.corrupt).snd = true
    ∧ (loadData Stored.corrupt).fst.workouts = emptyWorkouts
    ∧ (loadData Stored.corrupt).fst.schedule = emptySchedule
    ∧ (loadData Stored.corrupt).fst.progress = []
    ∧ (loadData Stored.corrupt).fst.session = none
    ∧ (loadData Stored.corrupt).fst.stored = Stored.corrupt
    ∧ (loadData Stored.absent).fst.schedule = emptySchedule
    ∧ (loadData Stored.absent).fst.progress = []
    ∧ (loadData Stored.corrupt).fst.workouts ≠ (loadData Stored.absent).fst.workouts := by
  refine ⟨rfl, rfl, rfl, rfl, rfl, rfl, rfl, rfl, ?_⟩
  decide

/-- Counterexample to C2 as stated: the state after loading a corrupt
document does not carry the seed catalog, hence differs from the
no-saved-data defaults. -/
theorem loadData_corrupt_counterexample :
    (loadData Stored.corrupt).fst.workouts ≠ seedWorkouts
    ∧ (loadData Stored.corrupt).fst.workouts ≠ (loadData Stored.absent).fst.workouts := by
  decide

/-! ## Session start (claim C8) -/

/-- C8: `startWorkout` fails exactly when the day's schedule entry is
empty; on failure it returns the state unchanged with no session created,
and on success it creates a session bound to that day's exercise list with
an empty set-log and an empty input buffer per exercise. -/
theorem startWorkout_spec (s : WorkoutPlanner) (d : Day) :
    ((startWorkout s d).snd = false ↔ s.schedule.get d = [])
    ∧ (s.schedule.get d = [] → startWorkout s d = (s, false))
    ∧ (s.schedule.get d ≠ [] →
        startWorkout s d =
          ({ s with
              session := some
                { day := d
                  data := (s.schedule.get d).map
                    (fun ex => { name := ex, sets := [] })
                  buffers := (s.schedule.get d).map (fun _ => []) } },
           true)) := by
  by_cases h : s.schedule.get d = []
  · refine ⟨?_, ?_, ?_⟩
    · simp [startWorkout, h]
    · intro _
      simp [startWorkout, h]
    · intro hne
      exact absurd h hne
  · have hlen : ¬((s.schedule.get d).length = 0) := by
      simpa [List.length_eq_zero] using h
    refine ⟨?_, ?_, ?_⟩
    · simp [startWorkout, hlen, h]
    · intro he
      exact absurd he h
    · intro _
      simp [startWorkout, hlen]

/-- A small state with one scheduled exercise on monday, used to witness
session claims at concrete inputs. -/
def demoBase : WorkoutPlanner :=
  { workouts := seedWorkouts
    schedule := emptySchedule.set Day.monday ["Bench Press"]
    progress := []
    session := none
    stored := Stored.absent }

/-- Witness for C8 at concrete inputs: starting on an empty tuesday fails
and changes nothing; starting on a nonempty monday opens the session. -/
theorem startWorkout_spec_witness :
    startWorkout seedState Day.tuesday = (seedState, false)
    ∧ startWorkout demoBase Day.monday =
        ({ demoBase with
            session := some
              { day := Day.monday
                data := (demoBase.schedule.get Day.monday).map
                  (fun ex => { name := ex, sets := [] })
                buffers := (demoBase.schedule.get Day.monday).map
                  (fun _ => []) } },
         true) :=
  ⟨(startWorkout_spec seedState Day.tuesday).2.1 rfl,
   (startWorkout_spec demoBase Day.monday).2.2 (by decide)⟩

/-! ## Schedule reconciliation (claim C1) -/

/-- C1 as amended: `updateSchedule` replaces a day's entry with a copy of
the catalog's list, in catalog order, exactly when the entry is empty or
fails the staleness check, and leaves it untouched otherwise; and whenever
the day's entry holds no duplicate names, the resulting entry is a
permutation (same multiset) of the catalog's list for that day's
category. -/
theorem updateSchedule_sync_spec (s : WorkoutPlanner) (d : Day) :
    ((updateSchedule s).schedule.get d =
      if (s.schedule.get d).length = 0 || !(isScheduleValid s d) then
        s.workouts.get (getDayType d)
      else s.schedule.get d)
    ∧ ((s.schedule.get d).Nodup →
        ((updateSchedule s).schedule.get d).Perm
          (s.workouts.get (getDayType d))) := by
  refine ⟨updateSchedule_get s d, ?_⟩
  intro hnd
  rw [updateSchedule_get]
  split
  · exact List.Perm.refl _
  next h =>
    simp only [Bool.or_eq_true, decide_eq_true_eq, Bool.not_eq_true'] at h
    push_neg at h
    obtain ⟨hlen0, hvalid⟩ := h
    replace hvalid : isScheduleValid s d = true := by
      simpa using hvalid
    simp only [isScheduleValid, Bool.and_eq_true, List.all_eq_true,
      beq_iff_eq] at hvalid
    obtain ⟨hall, hlen⟩ := hvalid
    have hsub : s.schedule.get d ⊆ s.workouts.get (getDayType d) := by
      intro x hx
      have := hall x hx
      simpa using this
    exact (hnd.subperm hsub).perm_of_length_le (le_of_eq hlen.symm)

/-- A state whose monday entry passes the staleness check without being a
permutation of the catalog: the entry repeats one catalog name. -/
def staleDupState : WorkoutPlanner :=
  { workouts := { push := ["A", "B"], pull := [], legs := [] }
    schedule := { emptySchedule with monday := ["A", "A"] }
    progress := []
    session := none
    stored := Stored.absent }

/-- Counterexample to C1 as stated: with catalog push = [A, B] and
schedule monday = [A, A], the sync keeps the entry (it has equal length
and every name is in the catalog), yet its multiset differs from the
catalog's. -/
theorem updateSchedule_multiset_counterexample :
    ¬(((updateSchedule staleDupState).schedule.get Day.monday).Perm
      (staleDupState.workouts.get (getDayType Day.monday))) := by
  decide

/-- Witness for C1 at a concrete input: a duplicate-free monday entry is
resynced into a permutation of the push catalog. -/
theorem updateSchedule_sync_spec_witness :
    ((updateSchedule demoBase).schedule.get Day.monday).Perm
      (demoBase.workouts.get (getDayType Day.monday)) :=
  (updateSchedule_sync_spec demoBase Day.monday).2 (by decide)

/-! ## Completing a workout (claims C3, C4, C10) -/

theorem completeWorkout_record_append (s : WorkoutPlanner) (sess : Session)
    (now : String) (r : WorkoutRecord) (hs : s.session = some sess)
    (happ : (completeWorkout s now).fst.progress = s.progress ++ [r]) :
    r.exercises =
      (s.schedule.get sess.day).enum.filterMap (fun p =>
        let sets := (sess.buffers.getD p.fst []).filter
          (fun st => decide (0 < st.reps))
        if sets.isEmpty then none
        else some { name := p.snd, sets := sets })
    ∧ r.exercises ≠ [] := by
  rw [completeWorkout.eq_def, hs] at happ
  dsimp only at happ
  split at happ
  · exact absurd happ (by simp)
  next hne =>
    simp only [saveData_progress] at happ
    have hrec := List.append_inj_right happ rfl
    simp only [List.cons.injEq, and_true] at hrec
    subst hrec
    exact ⟨rfl, by simpa [List.isEmpty_eq_false] using hne⟩

/-- C3: a `WorkoutRecord` appended by `completeWorkout` has at least one
exercise log, no exercise log with zero sets, and only sets with positive
reps (nonpositive-rep sets are filtered out before storing). -/
theorem completeWorkout_record_wellformed (s : WorkoutPlanner)
    (sess : Session) (now : String) (r : WorkoutRecord)
    (hs : s.session = some sess)
    (happ : (completeWorkout s now).fst.progress = s.progress ++ [r]) :
    r.exercises ≠ [] ∧
      ∀ e ∈ r.exercises, e.sets ≠ [] ∧ ∀ st ∈ e.sets, 0 < st.reps := by
  obtain ⟨hex, hne⟩ := completeWorkout_record_append s sess now r hs happ
  refine ⟨hne, ?_⟩
  intro e he
  rw [hex] at he
  obtain ⟨p, _, hfp⟩ := List.mem_filterMap.mp he
  dsimp only at hfp
  split at hfp
  · exact absurd hfp (by simp)
  next hne2 =>
    obtain rfl := Option.some.inj hfp
    constructor
    · simpa [List.isEmpty_eq_false] using hne2
    · intro st hst
      exact of_decide_eq_true (List.mem_filter.mp hst).2

theorem buildLogs_eq_nil (sch : List String) (bufs : List (List LoggedSet))
    (hz : ∀ buf ∈ bufs, ∀ st ∈ buf, st.reps ≤ 0) :
    sch.enum.filterMap (fun p =>
      if ((bufs.getD p.fst []).filter (fun st => decide (0 < st.reps))).isEmpty
      then none
      else some ({ name := p.snd
                   sets := (bufs.getD p.fst []).filter
                     (fun st => decide (0 < st.reps)) } : ExerciseLog))
      = [] := by
  rw [List.filterMap_eq_nil_iff]
  intro p hp
  have hsets : (bufs.getD p.fst []).filter (fun st => decide (0 < st.reps))
      = [] := by
    rw [List.filter_eq_nil_iff]
    intro st hst
    have hle : st.reps ≤ 0 := by
      rcases hb : bufs[p.fst]? with _ | b
      · rw [List.getD_eq_getElem?_getD, hb] at hst
        simp at hst
      · rw [List.getD_eq_getElem?_getD, hb] at hst
        exact hz b (List.getElem?_mem hb) st (by simpa using hst)
    simp only [decide_eq_true_eq, not_lt]
    exact hle
  rw [hsets]
  rfl

/-- C4: when no buffered set of the active session has positive reps,
`completeWorkout` reports failure and changes nothing: progress, catalog,
schedule, session and the persisted cell are exactly as before. -/
theorem completeWorkout_rejects_all_nonpositive (s : WorkoutPlanner)
    (sess : Session) (now : String) (hs : s.session = some sess)
    (hz : ∀ buf ∈ sess.buffers, ∀ st ∈ buf, st.reps ≤ 0) :
    completeWorkout s now = (s, false) := by
  rw [completeWorkout.eq_def, hs]
  dsimp only
  split
  · rfl
  next hne =>
    exact absurd (by rw [buildLogs_eq_nil _ _ hz]; rfl) hne

theorem completeWorkout_cases (s : WorkoutPlanner) (sess : Session)
    (now : String) (hs : s.session = some sess) :
    completeWorkout s now = (s, false)
    ∨ ((completeWorkout s now).fst.session = none
        ∧ (completeWorkout s now).snd = true) := by
  rw [completeWorkout.eq_def, hs]
  dsimp only
  split
  · exact Or.inl rfl
  · exact Or.inr ⟨rfl, rfl⟩

/-- C10: a failed `completeWorkout` keeps the session exactly as it was
(same day, same buffered sets), a successful one clears it, `closeModal`
clears it, and the catalog, schedule and randomize operations never touch
it. -/
theorem session_frame_spec (s : WorkoutPlanner) (sess : Session)
    (now : String) (c : Category) (nm : String) (i : Int) (d : Day)
    (js : Nat → Nat) :
    (s.session = some sess → (completeWorkout s now).snd = false →
      (completeWorkout s now).fst.session = some sess)
    ∧ (s.session = some sess → (completeWorkout s now).snd = true →
      (completeWorkout s now).fst.session = none)
    ∧ (closeModal s).session = none
    ∧ (addExercise s c nm).session = s.session
    ∧ (removeExercise s c i).session = s.session
    ∧ (randomizeDay s d js).session = s.session
    ∧ (updateSchedule s).session = s.session := by
  refine ⟨?_, ?_, rfl, ?_, ?_, ?_, updateSchedule_session s⟩
  · intro hs hfail
    rcases completeWorkout_cases s sess now hs with h | ⟨h1, h2⟩
    · rw [h]
      exact hs
    · rw [h2] at hfail
      exact absurd hfail (by simp)
  · intro hs hsucc
    rcases completeWorkout_cases s sess now hs with h | ⟨h1, _⟩
    · rw [h] at hsucc
      exact absurd hsucc (by simp)
    · exact h1
  · simp only [addExercise]
    split
    · rw [updateSchedule_session, saveData_session]
    · rfl
  · simp only [removeExercise]
    rw [updateSchedule_session, saveData_session]
  · simp only [randomizeDay]
    rw [saveData_session]

/-- A session with one buffered set of 10 reps at weight 100. -/
def demoGoodSession : Session :=
  { day := Day.monday
    data := [{ name := "Bench Press", sets := [] }]
    buffers := [[{ weight := 100, reps := 10 }]] }

/-- The demo state carrying `demoGoodSession`. -/
def demoGoodState : WorkoutPlanner :=
  { demoBase with session := some demoGoodSession }

/-- A session whose only buffered set has 0 reps. -/
def demoZeroSession : Session :=
  { day := Day.monday
    data := [{ name := "Bench Press", sets := [] }]
    buffers := [[{ weight := 100, reps := 0 }]] }

/-- The demo state carrying `demoZeroSession`. -/
def demoZeroState : WorkoutPlanner :=
  { demoBase with session := some demoZeroSession }

/-- The record `completeWorkout` appends from `demoGoodState`. -/
def demoRecord : WorkoutRecord :=
  { day := Day.monday
    date := "2024-01-01"
    exercises := [{ name := "Bench Press"
                    sets := [{ weight := 100, reps := 10 }] }] }

/-- Witness for C3 at a concrete input: the record appended from
`demoGoodState` is well-formed. -/
theorem completeWorkout_record_wellformed_witness :
    demoRecord.exercises ≠ [] ∧
      ∀ e ∈ demoRecord.exercises, e.sets ≠ [] ∧ ∀ st ∈ e.sets, 0 < st.reps :=
  completeWorkout_record_wellformed demoGoodState demoGoodSession
    "2024-01-01" demoRecord rfl (by decide)

/-- Witness for C4 at a concrete input: completing with only a 0-rep
buffered set fails and returns the state unchanged. -/
theorem completeWorkout_rejects_all_nonpositive_witness :
    completeWorkout demoZeroState "2024-01-01" = (demoZeroState, false) :=
  completeWorkout_rejects_all_nonpositive demoZeroState demoZeroSession
    "2024-01-01" rfl (by decide)

/-- Witness for C10 at a concrete input: after the failed completion the
session is still there, unchanged. -/
theorem session_frame_spec_witness :
    (completeWorkout demoZeroState "2024-01-01").fst.session =
      some demoZeroSession :=
  (session_frame_spec demoZeroState demoZeroSession "2024-01-01"
    Category.push "X" 0 Day.monday (fun _ => 0)).1 rfl (by decide)

/-! ## Round-tripping the persisted document (claim C9) -/

theorem decodeStrList_encodeStrList (l : List String) :
    decodeStrList (encodeStrList l) = l := by
  induction l with
  | nil => rfl
  | cons a t ih => simpa [encodeStrList, decodeStrList, List.filterMap_cons]
      using ih

theorem truthy_encodeWorkouts (w : Workouts) :
    truthy (encodeWorkouts w) = true := rfl

theorem truthy_encodeSchedule (sch : Schedule) :
    truthy (encodeSchedule sch) = true := rfl

theorem truthy_arr (xs : List Json) : truthy (Json.arr xs) = true := rfl

theorem decodeWorkouts_encodeWorkouts (w : Workouts) :
    decodeWorkouts (encodeWorkouts w) = w := by
  cases w
  simp [decodeWorkouts, encodeWorkouts, jsField, List.lookup,
    decodeStrList_encodeStrList]

theorem decodeSchedule_encodeSchedule (sch : Schedule) :
    decodeSchedule (encodeSchedule sch) = sch := by
  cases sch
  simp [decodeSchedule, encodeSchedule, jsField, List.lookup,
    decodeStrList_encodeStrList]

theorem dayFromStr_dayToString (d : Day) :
    dayFromStr (dayToString d) = some d := by
  cases d <;> rfl

theorem decodeSet_encodeSet (st : LoggedSet) :
    decodeSet (encodeSet st) = st := by
  cases st
  simp [decodeSet, encodeSet, jsField, List.lookup, jsonAsNum]

theorem decodeLog_encodeLog (e : ExerciseLog) :
    decodeLog (encodeLog e) = e := by
  cases e
  simp [decodeLog, encodeLog, jsField, List.lookup, jsonAsStr,
    List.map_map]
  exact List.map_id'' (fun x => decodeSet_encodeSet x) _

theorem decodeRecord_encodeRecord (r : WorkoutRecord) :
    decodeRecord (encodeRecord r) = r := by
  cases r
  simp [decodeRecord, encodeRecord, jsField, List.lookup, jsonAsStr,
    dayFromStr_dayToString, List.map_map]
  exact List.map_id'' (fun x => decodeLog_encodeLog x) _

theorem decodeProgress_encodeProgress (p : List WorkoutRecord) :
    decodeProgress (Json.arr (p.map encodeRecord)) = p := by
  simp only [decodeProgress, List.map_map]
  exact List.map_id'' (fun x => decodeRecord_encodeRecord x) _

/-- C9: loading right after saving reproduces the saved catalog, schedule
and progress log by value, with no decode error reported. -/
theorem load_save_roundtrip (w : Workouts) (sch : Schedule)
    (p : List WorkoutRecord) :
    (loadData (Stored.value (encodeData w sch p))).fst.workouts = w
    ∧ (loadData (Stored.value (encodeData w sch p))).fst.schedule = sch
    ∧ (loadData (Stored.value (encodeData w sch p))).fst.progress = p
    ∧ (loadData (Stored.value (encodeData w sch p))).snd = false := by
  rw [show Stored.value (encodeData w sch p) = Stored.value (Json.obj
    [("workouts", encodeWorkouts w), ("schedule", encodeSchedule sch),
     ("progress", Json.arr (p.map encodeRecord))]) from rfl]
  refine ⟨?_, ?_, ?_, ?_⟩ <;>
    simp [loadData, jsField, List.lookup, truthy_encodeWorkouts,
      truthy_encodeSchedule, truthy_arr, decodeWorkouts_encodeWorkouts,
      decodeSchedule_encodeSchedule, decodeProgress_encodeProgress]

/-! ## The Fisher-Yates shuffle (claim C7) -/

/-- The shuffle loop in explicit-choice form: the head of `cs` is the
index drawn at the highest loop counter `i = length - 1`.  Iterations
below a counter never touch positions at or above it, so the loop equals
this recursion: swap the drawn element to the last place, then shuffle
the prefix with the remaining draws. -/
def fyRec {α : Type} : List α → List Nat → List α
  | l, [] => l
  | l, c :: cs =>
      let l2 := swapIdx l (l.length - 1) c
      fyRec l2.dropLast cs ++ l2.drop (l2.length - 1)

theorem fyRec_cons {α : Type} (l : List α) (c : Nat) (cs : List Nat) :
    fyRec l (c :: cs) =
      fyRec (swapIdx l (l.length - 1) c).dropLast cs ++
        (swapIdx l (l.length - 1) c).drop
          ((swapIdx l (l.length - 1) c).length - 1) := rfl

/-- Valid draw sequences for a list of length `n`: one draw per loop
counter `i = n-1, ..., 1`, each in `[0, i]`; this is exactly the support
of `floor(random() * (i+1))` for an unbiased `random()`. -/
def validChoices : Nat → List Nat → Bool
  | n, [] => decide (n ≤ 1)
  | n, c :: cs => decide (2 ≤ n) && decide (c < n) && validChoices (n - 1) cs

theorem length_swapIdx {α : Type} (l : List α) (i j : Nat) :
    (swapIdx l i j).length = l.length := by
  unfold swapIdx
  split
  · simp
  · rfl

theorem cons_set_perm {α : Type} :
    ∀ (xs : List α) (j : Nat) (a b : α), xs[j]? = some b →
      (b :: xs.set j a).Perm (a :: xs)
  | [], j, a, b, h => by simp at h
  | x :: t, 0, a, b, h => by
      simp only [List.getElem?_cons_zero, Option.some.injEq] at h
      subst h
      exact List.Perm.swap a x t
  | x :: t, j + 1, a, b, h => by
      simp only [List.getElem?_cons_succ] at h
      have ih := cons_set_perm t j a b h
      rw [List.set_cons_succ]
      exact ((List.Perm.swap x b (t.set j a)).trans
        (List.Perm.cons x ih)).trans (List.Perm.swap a x t)

theorem swapIdx_perm {α : Type} (l : List α) : ∀ (i j : Nat),
    (swapIdx l i j).Perm l := by
  induction l with
  | nil => intro i j; exact List.Perm.refl _
  | cons x t ih =>
      intro i j
      match i, j with
      | 0, 0 =>
          simp [swapIdx]
      | 0, j + 1 =>
          rcases ht : t[j]? with _ | b
          · simp [swapIdx, ht]
          · simp only [swapIdx, List.getElem?_cons_zero,
              List.getElem?_cons_succ, ht, List.set_cons_zero,
              List.set_cons_succ]
            exact cons_set_perm t j x b ht
      | i + 1, 0 =>
          rcases ht : t[i]? with _ | a
          · simp [swapIdx, ht]
          · simp only [swapIdx, List.getElem?_cons_zero,
              List.getElem?_cons_succ, ht, List.set_cons_zero,
              List.set_cons_succ]
            exact cons_set_perm t i x a ht
      | i + 1, j + 1 =>
          rcases ht1 : t[i]? with _ | a
          · simp [swapIdx, ht1]
          · rcases ht2 : t[j]? with _ | b
            · simp [swapIdx, ht1, ht2]
            · simp only [swapIdx, List.getElem?_cons_succ, ht1, ht2,
                List.set_cons_succ]
              refine List.Perm.cons x ?_
              have h2 : swapIdx t i j = (t.set i b).set j a := by
                simp [swapIdx, ht1, ht2]
              rw [← h2]
              exact ih i j

theorem foldl_swapIdx_perm {α : Type} (js : Nat → Nat) :
    ∀ (idxs : List Nat) (l : List α),
      (idxs.foldl (fun acc i => swapIdx acc i (js i)) l).Perm l
  | [], l => List.Perm.refl l
  | i :: rest, l =>
      (foldl_swapIdx_perm js rest (swapIdx l i (js i))).trans
        (swapIdx_perm l i (js i))

/-- Every run of the shuffle loop, whatever the draws, permutes the
input list. -/
theorem fisherYates_perm {α : Type} (l : List α) (js : Nat → Nat) :
    (fisherYates l js).Perm l :=
  foldl_swapIdx_perm js _ l

theorem drop_pred_eq_get {α : Type} :
    ∀ (u : List α) (k : Nat), u.length = k + 1 →
      ∃ hk : k < u.length, u.drop k = [u[k]]
  | [], k, hlen => by simp at hlen
  | a :: t, 0, hlen => by
      have ht : t = [] := by
        simpa [List.length_eq_zero] using hlen
      subst ht
      exact ⟨by omega, rfl⟩
  | a :: t, k + 1, hlen => by
      have hlen2 : t.length = k + 1 := by simpa using hlen
      obtain ⟨hk, ih⟩ := drop_pred_eq_get t k hlen2
      refine ⟨by simpa using Nat.succ_lt_succ hk, ?_⟩
      rw [List.drop_succ_cons, ih]
      simp

theorem dropLast_append_drop_pred {α : Type} (u : List α) :
    u.dropLast ++ u.drop (u.length - 1) = u := by
  rcases u with _ | ⟨a, t⟩
  · rfl
  · obtain ⟨hk, hdrop⟩ := drop_pred_eq_get (a :: t) t.length (by simp)
    have h1 : (a :: t).length - 1 = t.length := by simp
    rw [h1, hdrop]
    have h2 := List.dropLast_append_getLast (List.cons_ne_nil a t)
    rw [List.getLast_eq_getElem] at h2
    simpa using h2

theorem fyRec_perm {α : Type} :
    ∀ (cs : List Nat) (l : List α), (fyRec l cs).Perm l
  | [], l => List.Perm.refl l
  | c :: cs, l => by
      rw [fyRec_cons]
      refine ((fyRec_perm cs
        (swapIdx l (l.length - 1) c).dropLast).append_right _).trans ?_
      rw [dropLast_append_drop_pred]
      exact swapIdx_perm l (l.length - 1) c

theorem swapIdx_append_singleton {α : Type} (a : List α) (x : α) (i j : Nat)
    (hi : i < a.length) (hj : j < a.length) :
    swapIdx (a ++ [x]) i j = swapIdx a i j ++ [x] := by
  unfold swapIdx
  rw [List.getElem?_append_left hi, List.getElem?_append_left hj,
    List.getElem?_eq_getElem hi, List.getElem?_eq_getElem hj]
  dsimp only
  rw [List.set_append_left _ _ hi,
    List.set_append_left _ _ (by rw [List.length_set]; exact hj)]

theorem foldl_swapIdx_append {α : Type} (js : Nat → Nat) :
    ∀ (idxs : List Nat) (a : List α) (x : α),
      (∀ i ∈ idxs, i < a.length ∧ js i < a.length) →
      idxs.foldl (fun acc i => swapIdx acc i (js i)) (a ++ [x]) =
        (idxs.foldl (fun acc i => swapIdx acc i (js i)) a) ++ [x]
  | [], a, x, h => rfl
  | i :: rest, a, x, h => by
      have hi := h i (List.mem_cons_self i rest)
      rw [List.foldl_cons, List.foldl_cons,
        swapIdx_append_singleton a x i (js i) hi.1 hi.2]
      exact foldl_swapIdx_append js rest (swapIdx a i (js i)) x (fun k hk => by
        rw [length_swapIdx]
        exact h k (List.mem_cons_of_mem i hk))

theorem range'_one_reverse_succ (m : Nat) :
    (List.range' 1 (m + 1)).reverse = (m + 1) :: (List.range' 1 m).reverse := by
  rw [List.range'_1_concat, List.reverse_append]
  simp [Nat.add_comm]

/-- The loop form of the shuffle equals the explicit-choice recursion on
the sequence of draws the loop makes, provided each draw `js i` is in
`[0, i]` (as `floor(random() * (i+1))` always is). -/
theorem fisherYates_eq_fyRec {α : Type} (js : Nat → Nat)
    (hjs : ∀ i, js i ≤ i) :
    ∀ (n : Nat) (l : List α), l.length = n →
      fisherYates l js =
        fyRec l (((List.range' 1 (l.length - 1)).reverse).map js) := by
  intro n
  induction n using Nat.strong_induction_on with
  | _ n ih =>
    intro l hlen
    match n, hlen with
    | 0, hlen =>
        have hl : l = [] := List.length_eq_zero.mp hlen
        subst hl
        rfl
    | 1, hlen =>
        obtain ⟨a, hl⟩ := List.length_eq_one.mp hlen
        subst hl
        rfl
    | m + 2, hlen =>
        have hidx : l.length - 1 = m + 1 := by omega
        rw [fisherYates, hidx, range'_one_reverse_succ, List.map_cons,
          List.foldl_cons]
        rw [fyRec_cons, hidx]
        have hL : (swapIdx l (m + 1) (js (m + 1))).length = m + 2 := by
          rw [length_swapIdx]; exact hlen
        have hLD : (swapIdx l (m + 1) (js (m + 1))).dropLast.length = m + 1 := by
          rw [List.length_dropLast, hL]
          omega
        obtain ⟨hk, hdrop⟩ := drop_pred_eq_get (swapIdx l (m + 1) (js (m + 1)))
          (m + 1) (by omega)
        have hsplit := dropLast_append_drop_pred (swapIdx l (m + 1) (js (m + 1)))
        rw [hL, show m + 2 - 1 = m + 1 by omega, hdrop] at hsplit
        conv_lhs => rw [← hsplit]
        rw [foldl_swapIdx_append js ((List.range' 1 m).reverse)
          (swapIdx l (m + 1) (js (m + 1))).dropLast
          ((swapIdx l (m + 1) (js (m + 1)))[m + 1])
          (fun i hi => by
            rw [hLD]
            rw [List.mem_reverse] at hi
            rw [List.mem_range'] at hi
            obtain ⟨k, hk1, hk2⟩ := hi
            have := hjs i
            omega)]
        have hrec := ih (m + 1) (by omega)
          (swapIdx l (m + 1) (js (m + 1))).dropLast hLD
        rw [fisherYates, hLD] at hrec
        have h10 : (m + 1) - 1 = m := by omega
        rw [h10] at hrec
        rw [hrec]
        rw [hL]
        have h11 : m + 2 - 1 = m + 1 := by omega
        rw [h11, hdrop]

theorem swapIdx_eq_of_lt {α : Type} (l : List α) (i j : Nat)
    (hi : i < l.length) (hj : j < l.length) :
    swapIdx l i j = (l.set i l[j]).set j l[i] := by
  unfold swapIdx
  rw [List.getElem?_eq_getElem hi, List.getElem?_eq_getElem hj]

theorem swapIdx_get_last {α : Type} (l : List α) (c k : Nat)
    (hc : c < l.length) (hk : l.length = k + 1)
    (hb : k < (swapIdx l k c).length) :
    (swapIdx l k c)[k] = l[c] := by
  have he := swapIdx_eq_of_lt l k c (by omega) hc
  by_cases hck : c = k
  · subst hck
    simp only [he, List.set_set, List.getElem_set_self]
  · simp only [he, List.getElem_set_ne hck, List.getElem_set_self]

/-- Uniformity of the shuffle in combinatorial form: over a
duplicate-free list, every permutation of the list is produced by exactly
one valid draw sequence, so unbiased independent draws make all
permutations equally likely. -/
theorem fyRec_exists_unique {α : Type} :
    ∀ (n : Nat) (l : List α), l.length = n → l.Nodup →
      ∀ p : List α, p.Perm l →
        ∃! cs, validChoices n cs = true ∧ fyRec l cs = p := by
  intro n
  induction n using Nat.strong_induction_on with
  | _ n ih =>
    intro l hlen hnd p hp
    match n, hlen with
    | 0, hlen =>
        have hl : l = [] := List.length_eq_zero.mp hlen
        subst hl
        have hp2 : p = [] := List.perm_nil.mp hp
        subst hp2
        refine ⟨[], ⟨by decide, rfl⟩, ?_⟩
        rintro cs ⟨hv, _⟩
        cases cs with
        | nil => rfl
        | cons c cs2 =>
            simp only [validChoices, Bool.and_eq_true, decide_eq_true_eq] at hv
            omega
    | 1, hlen =>
        obtain ⟨a, hl⟩ := List.length_eq_one.mp hlen
        subst hl
        have hp2 : p = [a] := List.perm_singleton.mp hp
        subst hp2
        refine ⟨[], ⟨by decide, rfl⟩, ?_⟩
        rintro cs ⟨hv, _⟩
        cases cs with
        | nil => rfl
        | cons c cs2 =>
            simp only [validChoices, Bool.and_eq_true, decide_eq_true_eq] at hv
            omega
    | m + 2, hlen =>
        have hppos : p ≠ [] := by
          intro h
          subst h
          have h0 := hp.length_eq
          simp [hlen] at h0
        obtain ⟨q, x, hqx⟩ : ∃ q x, p = q ++ [x] :=
          ⟨p.dropLast, p.getLast hppos,
            (List.dropLast_append_getLast hppos).symm⟩
        subst hqx
        have hxl : x ∈ l := hp.mem_iff.mp (by simp)
        obtain ⟨c, hc, hcx⟩ := List.getElem_of_mem hxl
        have hidx : l.length - 1 = m + 1 := by omega
        have hLlen : (swapIdx l (m + 1) c).length = m + 2 := by
          rw [length_swapIdx]; exact hlen
        have hLperm : (swapIdx l (m + 1) c).Perm l := swapIdx_perm l (m + 1) c
        have hLnd : (swapIdx l (m + 1) c).Nodup := hLperm.nodup_iff.mpr hnd
        have hlb : m + 1 < (swapIdx l (m + 1) c).length := by omega
        have hlast : (swapIdx l (m + 1) c)[m + 1] = x := by
          rw [swapIdx_get_last l c (m + 1) hc (by omega) hlb]
          exact hcx
        obtain ⟨hk2, hdrop⟩ := drop_pred_eq_get (swapIdx l (m + 1) c) (m + 1)
          (by omega)
        rw [hlast] at hdrop
        have hsplitL := dropLast_append_drop_pred (swapIdx l (m + 1) c)
        rw [hLlen, show m + 2 - 1 = m + 1 by omega, hdrop] at hsplitL
        have hqperm : q.Perm (swapIdx l (m + 1) c).dropLast := by
          have h1 : (q ++ [x]).Perm ((swapIdx l (m + 1) c).dropLast ++ [x]) := by
            refine hp.trans ?_
            rw [hsplitL]
            exact hLperm.symm
          exact (List.perm_append_right_iff [x]).mp h1
        have hdlen : (swapIdx l (m + 1) c).dropLast.length = m + 1 := by
          rw [List.length_dropLast]
          omega
        have hdnd : (swapIdx l (m + 1) c).dropLast.Nodup :=
          List.Nodup.sublist (List.dropLast_sublist _) hLnd
        obtain ⟨cs0, ⟨hv0, hf0⟩, huniq⟩ := ih (m + 1) (by omega)
          (swapIdx l (m + 1) c).dropLast hdlen hdnd q hqperm
        refine ⟨c :: cs0, ⟨?_, ?_⟩, ?_⟩
        · simp only [validChoices, Bool.and_eq_true, decide_eq_true_eq]
          refine ⟨⟨by omega, by omega⟩, ?_⟩
          rw [show m + 2 - 1 = m + 1 by omega]
          exact hv0
        · rw [fyRec_cons, hidx, hf0, hLlen, show m + 2 - 1 = m + 1 by omega,
            hdrop]
        · rintro ds ⟨hdv, hdf⟩
          cases ds with
          | nil =>
              simp only [validChoices, decide_eq_true_eq] at hdv
              omega
          | cons d ds2 =>
              simp only [validChoices, Bool.and_eq_true,
                decide_eq_true_eq] at hdv
              obtain ⟨⟨h2d, hdn⟩, hdv2⟩ := hdv
              rw [show m + 2 - 1 = m + 1 by omega] at hdv2
              rw [fyRec_cons, hidx] at hdf
              have hDlen : (swapIdx l (m + 1) d).length = m + 2 := by
                rw [length_swapIdx]; exact hlen
              have hdb : m + 1 < (swapIdx l (m + 1) d).length := by omega
              have hdlast : (swapIdx l (m + 1) d)[m + 1] = l[d] :=
                swapIdx_get_last l d (m + 1) (by omega) (by omega) hdb
              obtain ⟨hk3, hdrop2⟩ := drop_pred_eq_get (swapIdx l (m + 1) d)
                (m + 1) (by omega)
              rw [hDlen, show m + 2 - 1 = m + 1 by omega, hdrop2,
                hdlast] at hdf
              have hflen : (fyRec (swapIdx l (m + 1) d).dropLast ds2).length
                  = m + 1 := by
                rw [(fyRec_perm ds2 _).length_eq, List.length_dropLast,
                  hDlen]
                omega
              have hqlen : q.length = m + 1 := by
                have h6 := hp.length_eq
                simp [hlen] at h6
                omega
              have hpref := List.append_inj_left hdf
                (by rw [hflen, hqlen])
              have hlastEq : l[d] = x := by
                have h7 := List.append_inj_right hdf (by rw [hflen, hqlen])
                simpa using h7
              have hdc : d = c := by
                have hinj := List.nodup_iff_injective_get.mp hnd
                have h8 : l.get ⟨d, by omega⟩ = l.get ⟨c, hc⟩ := by
                  simp only [List.get_eq_getElem]
                  rw [hlastEq, hcx]
                have h9 := hinj h8
                simpa using h9
              subst hdc
              rw [huniq ds2 ⟨hdv2, hpref⟩]

/-- C7: `randomizeDay` always assigns to the day a permutation (same
multiset) of the catalog's list for that day's category, whatever the
random draws; the loop equals the explicit-draw recursion for every
in-range draw function; and over a duplicate-free list every permutation
of the list arises from exactly one valid draw sequence, so unbiased
independent draws make every permutation equally likely. -/
theorem randomizeDay_perm_and_unbiased (s : WorkoutPlanner) (d : Day)
    (js : Nat → Nat) :
    ((randomizeDay s d js).schedule.get d).Perm
      (s.workouts.get (getDayType d))
    ∧ (∀ (l : List String) (js2 : Nat → Nat), (∀ i, js2 i ≤ i) →
        fisherYates l js2 =
          fyRec l (((List.range' 1 (l.length - 1)).reverse).map js2))
    ∧ (∀ l : List String, l.Nodup → ∀ p : List String, p.Perm l →
        ∃! cs, validChoices l.length cs = true ∧ fyRec l cs = p) := by
  refine ⟨?_, ?_, ?_⟩
  · show ((s.schedule.set d
      (fisherYates (s.workouts.get (getDayType d)) js)).get d).Perm
      (s.workouts.get (getDayType d))
    rw [schedule_get_set_self]
    exact fisherYates_perm _ js
  · intro l js2 hjs2
    exact fisherYates_eq_fyRec js2 hjs2 l.length l rfl
  · intro l hnd p hp
    exact fyRec_exists_unique l.length l rfl hnd p hp

/-- Witness for C7 at concrete inputs: the loop-to-recursion equation for
a two-element list with the all-zero draw function, and the unique draw
sequence producing the swapped permutation of a two-element list. -/
theorem randomizeDay_perm_and_unbiased_witness :
    (fisherYates ["squat", "curl"] (fun _ => 0) =
      fyRec ["squat", "curl"]
        (((List.range' 1 ((["squat", "curl"] : List String).length - 1)).reverse).map
          (fun _ => 0)))
    ∧ ∃! cs, validChoices (["squat", "curl"] : List String).length cs = true
        ∧ fyRec (["squat", "curl"] : List String) cs = ["curl", "squat"] :=
  ⟨(randomizeDay_perm_and_unbiased seedState Day.monday (fun _ => 0)).2.1
      ["squat", "curl"] (fun _ => 0) (fun i => Nat.zero_le i),
   (randomizeDay_perm_and_unbiased seedState Day.monday (fun _ => 0)).2.2
      ["squat", "curl"] (by decide) ["curl", "squat"] (by decide)⟩
